import Mathlib

/-!
Shallow embedding of the `granter` permission-composition core.

A permission unit wraps a named check `(ctx, resource) -> bool` (possibly
async, possibly throwing).  We model a check as a function
`Ctx → Option Res → Except E Bool × List String`: the `Option Res` argument is
the JavaScript resource slot (`none` models `undefined`), the `Except`
models resolve/reject of the returned promise, and the `List String` is the
invocation log produced by the call.  The log is the instrumentation the
spec itself prescribes for the short-circuit properties ("instrumenting
children to record invocation order/count"): a unit built by the leaf
constructor `permission(name, check)` records its `name` whenever its check
runs; operator closures only concatenate the logs of the child checks they
actually start, in start order.

`Promise.all` is modelled by `promiseAll`: every listed computation has
already been started (its log entries are produced) and the combined
promise resolves with the list of values, or rejects with the first
rejection in input order (the completion order of checks that settle
synchronously, which is the deterministic choice available to a pure
model).

The source attaches composite behaviour in two equivalent calling styles:
`p.check(ctx, resource)` (src/src/operators/and.ts, or.ts, not.ts) and
`p(ctx, resource)` where the callable `fn` merely awaits `check`
(src/src/operators/andParallel.ts, orParallel.ts).  Both are modelled
uniformly as invoking `Perm.check`.
-/

namespace Granter

/-- Invocation log: names of the unit checks that were started, in start
order. -/
abbrev Log := List String

/-- A JavaScript runtime value, as far as the dynamic dispatch in
`fn.orThrow` (src/src/utils/permission.ts lines 88-116) can distinguish
one: `typeof x === 'string'`, `typeof x === 'function'`,
`x instanceof Error`, `undefined`, or any other object.  A zero-argument
factory function is represented by the value it returns when invoked
(`func ret` invoked yields `ret`).  An `Error` instance carries its `name`
and `message` fields. -/
inductive JSVal : Type where
  | undef : JSVal
  | str (s : String) : JSVal
  | func (ret : JSVal) : JSVal
  | errV (ename : String) (msg : String) : JSVal
  | obj (tag : String) : JSVal
deriving DecidableEq, Repr

/-- The value `new ForbiddenError(msg)` (src/src/errors/ForbiddenError.ts):
an Error instance whose `name` field is the string ForbiddenError. -/
def ForbiddenError (msg : String) : JSVal := JSVal.errV "ForbiddenError" msg

/-- `typeof x === 'string'`. -/
def JSVal.isStr : JSVal → Bool
  | .str _ => true
  | _ => false

/-- `typeof x === 'function'`. -/
def JSVal.isFunc : JSVal → Bool
  | .func _ => true
  | _ => false

/-- `x instanceof Error`. -/
def JSVal.isErr : JSVal → Bool
  | .errV _ _ => true
  | _ => false

/-- JavaScript truthiness test `!error` on the error-override slot, which
holds either nothing (`none`, the argument was absent), or one of the
modelled values.  Of those, `undefined` and the empty string are falsy;
functions, Error instances and other objects are truthy. -/
def jsFalsy : Option JSVal → Bool
  | none => true
  | some .undef => true
  | some (.str s) => s = ""
  | some _ => false

variable {Ctx Res E : Type}

/-- A permission unit: `name`, the stored check function, and the optional
`children` metadata (src/src/utils/permission.ts lines 31-53; the `children`
property is only set when a non-empty list is passed, which we model by the
empty list standing for an absent property). -/
inductive Perm (Ctx Res E : Type) : Type where
  | mk (name : String)
       (check : Ctx → Option Res → Except E Bool × Log)
       (children : List (Perm Ctx Res E))

/-- The `name` property of a unit. -/
def Perm.name : Perm Ctx Res E → String
  | .mk n _ _ => n

/-- The stored check of a unit.  Invoking the callable `fn` built by
`permission` is `await check(ctx, resource)` (src/src/utils/permission.ts
lines 72-75), so calling the unit and calling its check coincide. -/
def Perm.check : Perm Ctx Res E → Ctx → Option Res → Except E Bool × Log
  | .mk _ c _ => c

/-- The `children` metadata of a unit (`[]` when the property is absent). -/
def Perm.children : Perm Ctx Res E → List (Perm Ctx Res E)
  | .mk _ _ cs => cs

/-- `permission(name, check, children)` (src/src/utils/permission.ts lines
67-145): wrap a check body into a unit.  Used by the operators with their
composed closure as body. -/
def permission (name : String) (body : Ctx → Option Res → Except E Bool × Log)
    (children : List (Perm Ctx Res E)) : Perm Ctx Res E :=
  .mk name body children

/-- A leaf unit built from a user check `f`: `permission(name, f)` where the
user check is instrumented to record its own invocation, as in the test
suite (checks that push to a `checkOrder` array). -/
def leaf (name : String) (f : Ctx → Option Res → Except E Bool) : Perm Ctx Res E :=
  permission name (fun ctx r => (f ctx r, [name])) []

/-- `await Promise.all(results)` over computations that were all already
started: resolves with the list of values, or rejects with the first
rejection in input order. -/
def promiseAll : List (Except E α) → Except E (List α)
  | [] => .ok []
  | .error e :: _ => .error e
  | .ok a :: rest =>
    match promiseAll rest with
    | .error e => .error e
    | .ok xs => .ok (a :: xs)

/-- The composite name `(${names.join(' OP ')})` used by the operators. -/
def joinNames (op : String) (ps : List (Perm Ctx Res E)) : String :=
  "(" ++ String.intercalate (" " ++ op ++ " ") (ps.map Perm.name) ++ ")"

/-- Body of `and` (src/src/operators/and.ts lines 41-48): check the
children sequentially, awaiting each in turn; return `false` at the first
child that resolves `false` (the loop breaks, later children are never
started); rethrow at the first child that rejects; return `true` when the
list is exhausted. -/
def andLoop : List (Perm Ctx Res E) → Ctx → Option Res → Except E Bool × Log
  | [], _, _ => (.ok true, [])
  | p :: rest, ctx, r =>
    match p.check ctx r with
    | (.error e, l) => (.error e, l)
    | (.ok false, l) => (.ok false, l)
    | (.ok true, l) =>
      match andLoop rest ctx r with
      | (v, l') => (v, l ++ l')

/-- `and(...permissions)` (src/src/operators/and.ts lines 38-50): a new unit
whose check is the sequential short-circuiting loop; no `children` metadata
is passed to `permission`. -/
def and (ps : List (Perm Ctx Res E)) : Perm Ctx Res E :=
  permission (joinNames "AND" ps) (andLoop ps) []

/-- `permissions.map(p => p.check(ctx, resource))`: start every child check
in input order, collecting the still-unawaited results and the combined
log of the started checks. -/
def startAll : List (Perm Ctx Res E) → Ctx → Option Res → List (Except E Bool) × Log
  | [], _, _ => ([], [])
  | p :: rest, ctx, r =>
    match p.check ctx r, startAll rest ctx r with
    | (v, l), (vs, l') => (v :: vs, l ++ l')

/-- Body of `or` (src/src/operators/or.ts lines 45-56 and 145-156): start
all child checks, `await Promise.all`, then `results.some(allowed =>
allowed)`. -/
def orBody (ps : List (Perm Ctx Res E)) (ctx : Ctx) (r : Option Res) :
    Except E Bool × Log :=
  match startAll ps ctx r with
  | (vs, l) =>
    match promiseAll vs with
    | .error e => (.error e, l)
    | .ok bs => (.ok (bs.any id), l)

/-- `or(...permissions)` (src/src/operators/or.ts lines 42-58 and 140-158):
a new unit whose check runs all children in parallel; no `children`
metadata is passed to `permission`. -/
def or (ps : List (Perm Ctx Res E)) : Perm Ctx Res E :=
  permission (joinNames "OR" ps) (orBody ps) []

/-- `not(p)` (src/src/operators/not.ts lines 13-21): a new unit named
`NOT <p.name>` that awaits the single child check and inverts its boolean;
a rejection propagates; no `children` metadata is passed to
`permission`. -/
def not (p : Perm Ctx Res E) : Perm Ctx Res E :=
  permission ("NOT " ++ p.name) (fun ctx r =>
    match p.check ctx r with
    | (v, l) => (v.map Bool.not, l)) []

/-- `operatorPermission(operator, children, check)`
(src/src/utils/operatorPermission.ts lines 3-11): builds the joined name and
passes the children list on to `permission`, so the resulting unit carries
`children` metadata. -/
def operatorPermission (op : String) (children : List (Perm Ctx Res E))
    (body : Ctx → Option Res → Except E Bool × Log) : Perm Ctx Res E :=
  permission (joinNames op children) body children

/-- Body shared by the parallel operators (src/src/operators/andParallel.ts
lines 85-91, orParallel.ts lines 85-91): start every child, await
`Promise.all`, combine with `combine` (`every` or `some`). -/
def parBody (combine : List Bool → Bool) (ps : List (Perm Ctx Res E))
    (ctx : Ctx) (r : Option Res) : Except E Bool × Log :=
  match startAll ps ctx r with
  | (vs, l) =>
    match promiseAll vs with
    | .error e => (.error e, l)
    | .ok bs => (.ok (combine bs), l)

/-- `andParallel(...permissions)` (src/src/operators/andParallel.ts lines
79-93): all children run, `results.every(result => result)`. -/
def andParallel (ps : List (Perm Ctx Res E)) : Perm Ctx Res E :=
  operatorPermission "AND" ps (parBody (List.all · id) ps)

/-- `orParallel(...permissions)` (src/src/operators/orParallel.ts lines
79-93): all children run, `results.some(result => result)`. -/
def orParallel (ps : List (Perm Ctx Res E)) : Perm Ctx Res E :=
  operatorPermission "OR" ps (parBody (List.any · id) ps)

/-- The value thrown by `fn.orThrow` when the check denied access
(src/src/utils/permission.ts lines 101-115): a default `ForbiddenError`
naming the unit when the error-override slot is falsy (absent, `undefined`,
or the empty string); `new ForbiddenError(error)` for a non-empty string; the
result of invoking a factory; any other value is thrown as-is. -/
def throwDenied (name : String) (error : Option JSVal) : JSVal :=
  match error with
  | none => ForbiddenError ("Permission denied: " ++ name)
  | some .undef => ForbiddenError ("Permission denied: " ++ name)
  | some (.str s) =>
    if s = "" then ForbiddenError ("Permission denied: " ++ name)
    else ForbiddenError s
  | some (.func ret) => ret
  | some v => v

/-- The core of `fn.orThrow` after argument dispatch
(src/src/utils/permission.ts lines 99-115): evaluate
`fn(ctx, ...(resource !== undefined ? [resource] : []))` — so the check
receives `undefined` when `resource` is `undefined` — resolve silently on
`true`, rethrow a check rejection unchanged, and otherwise throw per
`throwDenied`. -/
def orThrowWith (p : Perm Ctx JSVal E) (ctx : Ctx) (resource : JSVal)
    (error : Option JSVal) : Except (Except E JSVal) Unit × Log :=
  match p.check ctx (if resource = .undef then none else some resource) with
  | (.error e, l) => (.error (.error e), l)
  | (.ok true, l) => (.ok (), l)
  | (.ok false, l) => (.error (.ok (throwDenied p.name error)), l)

/-- `fn.orThrow(ctx, ...args)` (src/src/utils/permission.ts lines 88-116):
the first extra argument is taken as the resource only when it is not a
string, not a function and not an `Error` instance; otherwise it is
consumed as the error override and the resource stays `undefined`.  The
thrown value is `Except.error e` for a propagated check fault `e`, and
`Except.ok v` for a denial converted to the thrown JavaScript value `v`. -/
def orThrow (p : Perm Ctx JSVal E) (ctx : Ctx) (args : List JSVal) :
    Except (Except E JSVal) Unit × Log :=
  let hasResource : Bool :=
    match args.head? with
    | none => false
    | some a => !(a.isStr || a.isFunc || a.isErr)
  let resource : JSVal := if hasResource then args.headD .undef else .undef
  let error : Option JSVal := if hasResource then args.get? 1 else args.head?
  orThrowWith p ctx resource error

/-- `resources.filter((_, i) => results[i])`
(src/src/utils/permission.ts line 120): keep the elements whose index looks
up a truthy entry of `results` (an out-of-range lookup yields `undefined`,
which is falsy). -/
def filterIdx (results : List Bool) : List Res → Nat → List Res
  | [], _ => []
  | r :: rest, i =>
    if results.getD i false then r :: filterIdx results rest (i + 1)
    else filterIdx results rest (i + 1)

/-- `resources.map(r => fn(ctx, r))`: start one check per candidate, in
candidate order. -/
def filterStart (p : Perm Ctx Res E) (ctx : Ctx) :
    List Res → List (Except E Bool) × Log
  | [] => ([], [])
  | r :: rest =>
    match p.check ctx (some r), filterStart p ctx rest with
    | (v, l), (vs, l') => (v :: vs, l ++ l')

/-- `fn.filter(ctx, resources)` (src/src/utils/permission.ts lines
118-121): start every candidate check concurrently, await `Promise.all`
(a rejection propagates), then filter the candidates by index. -/
def filter (p : Perm Ctx Res E) (ctx : Ctx) (resources : List Res) :
    Except E (List Res) × Log :=
  match filterStart p ctx resources with
  | (vs, l) =>
    match promiseAll vs with
    | .error e => (.error e, l)
    | .ok bs => (.ok (filterIdx bs resources 0), l)

/-- An Explanation Node as built by `fn.explain`
(src/src/utils/permission.ts lines 129-141): the unit name, the boolean
`value`, and the `children` property, present exactly when the unit carries
non-empty children metadata.  The wall-clock `duration` field is a real-time
measurement outside this embedding and is not modelled. -/
inductive ExplNode : Type where
  | mk (name : String) (value : Bool) (children : Option (List ExplNode))
deriving Repr

/-- Name of an explanation node. -/
def ExplNode.name : ExplNode → String
  | .mk n _ _ => n

/-- Boolean value of an explanation node. -/
def ExplNode.value : ExplNode → Bool
  | .mk _ v _ => v

/-- Child nodes of an explanation node (`none` when the `children` property
is absent). -/
def ExplNode.childNodes : ExplNode → Option (List ExplNode)
  | .mk _ _ cs => cs

mutual

/-- `fn.explain(ctx, ...args)` (src/src/utils/permission.ts lines 123-142):
re-evaluate the unit with a plain call (a rejection propagates), build the
node from the unit name and the value, and — when the unit carries
non-empty `children` metadata — additionally call `explain` on every child
with the same arguments via `Promise.all`, whether or not the plain call
evaluated that child. -/
def explain : Perm Ctx Res E → Ctx → Option Res → Except E ExplNode × Log
  | .mk nm chk children, ctx, r =>
    match chk ctx r with
    | (.error e, l) => (.error e, l)
    | (.ok value, l) =>
      match children with
      | [] => (.ok (.mk nm value none), l)
      | c :: cs =>
        match explainList (c :: cs) ctx r with
        | (ns, l') =>
          match promiseAll ns with
          | .error e => (.error e, l ++ l')
          | .ok nodes => (.ok (.mk nm value (some nodes)), l ++ l')

/-- `children.map(p => p.explain(ctx, ...))`: start every child explanation
in order. -/
def explainList (ps : List (Perm Ctx Res E)) (ctx : Ctx) (r : Option Res) :
    List (Except E ExplNode) × Log :=
  match ps with
  | [] => ([], [])
  | p :: rest =>
    match explain p ctx r, explainList rest ctx r with
    | (n, l), (ns, l') => (n :: ns, l ++ l')

end

/-- An instrumented leaf unit from a name and a boolean check function: the
shape of the children the spec prescribes for testing the short-circuit
properties (a named check recording its own invocation). -/
def mkLeaf (s : String × (Ctx → Option Res → Bool)) : Perm Ctx Res E :=
  leaf s.1 (fun ctx r => .ok (s.2 ctx r))

/-- The names of the children that the sequential `and` loop starts on a
given input: every child up to and including the first whose check yields
`false`; children after that point do not appear. -/
def andStartedNames (ctx : Ctx) (r : Option Res) :
    List (String × (Ctx → Option Res → Bool)) → List String
  | [] => []
  | s :: rest =>
    if s.2 ctx r then s.1 :: andStartedNames ctx r rest else [s.1]

end Granter

namespace Granter

variable {Ctx Res E : Type}

theorem startAll_eq (ps : List (Perm Ctx Res E)) (ctx : Ctx) (r : Option Res) :
    startAll ps ctx r
      = (ps.map fun q => (q.check ctx r).1, (ps.map fun q => (q.check ctx r).2).flatten) := by
  induction ps with
  | nil => rfl
  | cons p rest ih =>
    simp only [startAll, ih, List.map_cons, List.flatten_cons]

theorem promiseAll_map_ok (l : List α) (f : α → β) :
    promiseAll (E := E) (l.map fun x => Except.ok (f x)) = .ok (l.map f) := by
  induction l with
  | nil => rfl
  | cons x rest ih => simp [promiseAll, ih]

theorem promiseAll_append_error (xs : List (Except E Bool))
    (h : ∀ x ∈ xs, ∃ b, x = .ok b) (e : E) (ys : List (Except E Bool)) :
    promiseAll (xs ++ .error e :: ys) = .error e := by
  induction xs with
  | nil => rfl
  | cons x rest ih =>
    obtain ⟨b, hb⟩ := h x (List.mem_cons_self x rest)
    subst hb
    simp only [List.cons_append, promiseAll, List.append_eq,
      ih (fun y hy => h y (List.mem_cons_of_mem _ hy))]

theorem filterStart_eq (p : Perm Ctx Res E) (ctx : Ctx) (rs : List Res) :
    filterStart p ctx rs
      = (rs.map fun r => (p.check ctx (some r)).1,
         (rs.map fun r => (p.check ctx (some r)).2).flatten) := by
  induction rs with
  | nil => rfl
  | cons r rest ih =>
    simp only [filterStart, ih, List.map_cons, List.flatten_cons]

theorem filterIdx_append (f : Res → Bool) (pre : List Bool) (rs : List Res) :
    filterIdx (pre ++ rs.map f) rs pre.length = rs.filter f := by
  induction rs generalizing pre with
  | nil => rfl
  | cons r rest ih =>
    have hget : (pre ++ f r :: rest.map f).getD pre.length false = f r := by
      rw [List.getD_eq_getElem?_getD, List.getElem?_append_right (Nat.le_refl _)]
      simp
    have htail : filterIdx (pre ++ f r :: rest.map f) rest (pre.length + 1)
        = rest.filter f := by
      have h2 : pre ++ f r :: rest.map f = (pre ++ [f r]) ++ rest.map f := by simp
      have h3 : pre.length + 1 = (pre ++ [f r]).length := by simp
      rw [h2, h3, ih]
    simp only [List.map_cons, filterIdx, hget, htail, List.filter_cons]

theorem andLoop_mkLeaf (specs : List (String × (Ctx → Option Res → Bool)))
    (ctx : Ctx) (r : Option Res) :
    andLoop (E := E) (specs.map mkLeaf) ctx r
      = (.ok (specs.all fun s => s.2 ctx r), andStartedNames ctx r specs) := by
  induction specs with
  | nil => rfl
  | cons s rest ih =>
    simp only [List.map_cons, andLoop, mkLeaf, leaf, permission, Perm.check, List.all_cons,
      andStartedNames]
    cases hs : s.2 ctx r with
    | false => simp
    | true => simp [ih]

theorem any_map_id (l : List α) (f : α → Bool) : (l.map f).any id = l.any f := by
  induction l with
  | nil => rfl
  | cons a rest ih => simp [ih]

theorem all_map_id (l : List α) (f : α → Bool) : (l.map f).all id = l.all f := by
  induction l with
  | nil => rfl
  | cons a rest ih => simp [ih]

theorem flatten_map_singleton (l : List α) (f : α → β) :
    (l.map fun a => [f a]).flatten = l.map f := by
  induction l with
  | nil => rfl
  | cons a rest ih => simp [ih]

theorem mkLeaf_check (s : String × (Ctx → Option Res → Bool)) (ctx : Ctx) (r : Option Res) :
    (mkLeaf (E := E) s).check ctx r = (.ok (s.2 ctx r), [s.1]) := rfl

theorem or_check_mkLeaf (specs : List (String × (Ctx → Option Res → Bool)))
    (ctx : Ctx) (r : Option Res) :
    (Granter.or (E := E) (specs.map mkLeaf)).check ctx r
      = (.ok (specs.any fun s => s.2 ctx r), specs.map (·.1)) := by
  have h1 : (Granter.or (E := E) (specs.map mkLeaf)).check ctx r
      = orBody (specs.map mkLeaf) ctx r := rfl
  rw [h1, orBody, startAll_eq]
  simp only [List.map_map]
  have h2 : (fun q => ((Perm.check (E := E) q) ctx r).1) ∘ mkLeaf
      = fun s : String × (Ctx → Option Res → Bool) => Except.ok (s.2 ctx r) := rfl
  have h3 : (fun q => ((Perm.check (E := E) q) ctx r).2) ∘ mkLeaf
      = fun s : String × (Ctx → Option Res → Bool) => [s.1] := rfl
  rw [h2, h3, promiseAll_map_ok, flatten_map_singleton]
  simp [any_map_id]

/-- C1 counterexample: the composite built by `or` does not stop at the
first child that resolves to `true`.  With two instrumented children that
both resolve `true`, the first child alone would determine the result, yet
the invocation log of the composite records that the second child was
started as well (the claim requires that children after the short-circuit
point are never started, i.e. a log of just the first name). -/
theorem C1_counterexample :
    (Granter.or [leaf "A" (fun (_ : Unit) (_ : Option Unit) => (Except.ok true : Except String Bool)),
        leaf "B" (fun _ _ => .ok true)]).check () none
      = (.ok true, ["A", "B"])
    ∧ (leaf "A" (fun (_ : Unit) (_ : Option Unit) => (Except.ok true : Except String Bool))).check () none
      = (.ok true, ["A"])
    ∧ "B" ∈ ((Granter.or [leaf "A" (fun (_ : Unit) (_ : Option Unit) => (Except.ok true : Except String Bool)),
        leaf "B" (fun _ _ => .ok true)]).check () none).2 :=
  ⟨rfl, rfl, by decide⟩

/-- C1 (amended): for every list of instrumented permission units and every
(context, resource) pair, the sequential composite built by `and` evaluates
its children one at a time in input order and stops at the first child that
resolves to `false` (its log is the child names up to and including that
child; children after that point are never started), while the composite
built by `or` starts every child in input order regardless of the
children's results (no short-circuit; its log is all child names), and
resolves to the disjunction of all the results. -/
theorem C1_sequential_evaluation (specs : List (String × (Ctx → Option Res → Bool)))
    (ctx : Ctx) (r : Option Res) :
    (Granter.and (E := E) (specs.map mkLeaf)).check ctx r
      = (.ok (specs.all fun s => s.2 ctx r), andStartedNames ctx r specs)
    ∧ (Granter.or (E := E) (specs.map mkLeaf)).check ctx r
      = (.ok (specs.any fun s => s.2 ctx r), specs.map (·.1)) :=
  ⟨andLoop_mkLeaf specs ctx r, or_check_mkLeaf specs ctx r⟩

theorem and_pair_val (A B : Perm Ctx Res E) (ctx : Ctx) (r : Option Res) (a b : Bool)
    (hA : (A.check ctx r).1 = .ok a) (hB : (B.check ctx r).1 = .ok b) :
    ((Granter.and [A, B]).check ctx r).1 = .ok (a && b) := by
  have h0 : (Granter.and [A, B]).check ctx r = andLoop [A, B] ctx r := rfl
  rw [h0]
  rcases hEA : A.check ctx r with ⟨va, la⟩
  rcases hEB : B.check ctx r with ⟨vb, lb⟩
  rw [hEA] at hA
  rw [hEB] at hB
  simp only at hA hB
  subst hA
  subst hB
  simp only [andLoop, hEA, hEB]
  cases a with
  | false => simp
  | true => cases b <;> simp [andLoop]

theorem or_pair_val (A B : Perm Ctx Res E) (ctx : Ctx) (r : Option Res) (a b : Bool)
    (hA : (A.check ctx r).1 = .ok a) (hB : (B.check ctx r).1 = .ok b) :
    ((Granter.or [A, B]).check ctx r).1 = .ok (a || b) := by
  have h0 : (Granter.or [A, B]).check ctx r = orBody [A, B] ctx r := rfl
  rw [h0, orBody, startAll_eq]
  simp only [List.map_cons, List.map_nil, hA, hB]
  simp [promiseAll]

theorem andParallel_pair_val (A B : Perm Ctx Res E) (ctx : Ctx) (r : Option Res) (a b : Bool)
    (hA : (A.check ctx r).1 = .ok a) (hB : (B.check ctx r).1 = .ok b) :
    ((andParallel [A, B]).check ctx r).1 = .ok (a && b) := by
  have h0 : (andParallel [A, B]).check ctx r = parBody (List.all · id) [A, B] ctx r := rfl
  rw [h0, parBody, startAll_eq]
  simp only [List.map_cons, List.map_nil, hA, hB]
  simp [promiseAll]

theorem orParallel_pair_val (A B : Perm Ctx Res E) (ctx : Ctx) (r : Option Res) (a b : Bool)
    (hA : (A.check ctx r).1 = .ok a) (hB : (B.check ctx r).1 = .ok b) :
    ((orParallel [A, B]).check ctx r).1 = .ok (a || b) := by
  have h0 : (orParallel [A, B]).check ctx r = parBody (List.any · id) [A, B] ctx r := rfl
  rw [h0, parBody, startAll_eq]
  simp only [List.map_cons, List.map_nil, hA, hB]
  simp [promiseAll]

theorem not_check_eq (p : Perm Ctx Res E) (ctx : Ctx) (r : Option Res) :
    (Granter.not p).check ctx r = ((p.check ctx r).1.map Bool.not, (p.check ctx r).2) := rfl

/-- C3: for all permission units A and B whose checks resolve to booleans a
and b on a (context, resource) pair, the composite built by `and(A, B)`
evaluates to the conjunction a AND b, `or(A, B)` to the disjunction a OR b,
and `andParallel(A, B)` and `orParallel(A, B)` produce the same boolean
results as their sequential counterparts on the same inputs. -/
theorem C3_boolean_semantics (A B : Perm Ctx Res E) (ctx : Ctx) (r : Option Res) (a b : Bool)
    (hA : (A.check ctx r).1 = .ok a) (hB : (B.check ctx r).1 = .ok b) :
    ((Granter.and [A, B]).check ctx r).1 = .ok (a && b)
    ∧ ((Granter.or [A, B]).check ctx r).1 = .ok (a || b)
    ∧ ((andParallel [A, B]).check ctx r).1 = .ok (a && b)
    ∧ ((orParallel [A, B]).check ctx r).1 = .ok (a || b) :=
  ⟨and_pair_val A B ctx r a b hA hB, or_pair_val A B ctx r a b hA hB,
   andParallel_pair_val A B ctx r a b hA hB, orParallel_pair_val A B ctx r a b hA hB⟩

/-- C3 witness: the four equalities at two concrete instrumented units with
results true and false. -/
theorem C3_witness :
    ((leaf "A" (fun (_ : Unit) (_ : Option Unit) => (Except.ok true : Except String Bool))).check () none).1
        = .ok true
    ∧ (((Granter.and [leaf "A" (fun (_ : Unit) (_ : Option Unit) => (Except.ok true : Except String Bool)),
          leaf "B" (fun _ _ => .ok false)]).check () none).1 = .ok (true && false)
        ∧ ((Granter.or [leaf "A" (fun (_ : Unit) (_ : Option Unit) => (Except.ok true : Except String Bool)),
            leaf "B" (fun _ _ => .ok false)]).check () none).1 = .ok (true || false)
        ∧ ((andParallel [leaf "A" (fun (_ : Unit) (_ : Option Unit) => (Except.ok true : Except String Bool)),
            leaf "B" (fun _ _ => .ok false)]).check () none).1 = .ok (true && false)
        ∧ ((orParallel [leaf "A" (fun (_ : Unit) (_ : Option Unit) => (Except.ok true : Except String Bool)),
            leaf "B" (fun _ _ => .ok false)]).check () none).1 = .ok (true || false)) :=
  ⟨rfl, C3_boolean_semantics _ _ () none true false rfl rfl⟩

/-- C4: for all permission units A and B whose checks resolve to booleans
on a (context, resource) pair, `not(and(A, B))` evaluates to the same
boolean as `or(not(A), not(B))`, and dually `not(or(A, B))` evaluates to
the same boolean as `and(not(A), not(B))`. -/
theorem C4_de_morgan (A B : Perm Ctx Res E) (ctx : Ctx) (r : Option Res) (a b : Bool)
    (hA : (A.check ctx r).1 = .ok a) (hB : (B.check ctx r).1 = .ok b) :
    ((Granter.not (Granter.and [A, B])).check ctx r).1
        = ((Granter.or [Granter.not A, Granter.not B]).check ctx r).1
    ∧ ((Granter.not (Granter.or [A, B])).check ctx r).1
        = ((Granter.and [Granter.not A, Granter.not B]).check ctx r).1 := by
  have hNA : ((Granter.not A).check ctx r).1 = .ok (!a) := by
    rw [not_check_eq, hA]
    rfl
  have hNB : ((Granter.not B).check ctx r).1 = .ok (!b) := by
    rw [not_check_eq, hB]
    rfl
  constructor
  · rw [not_check_eq, and_pair_val A B ctx r a b hA hB,
      or_pair_val (Granter.not A) (Granter.not B) ctx r (!a) (!b) hNA hNB]
    cases a <;> cases b <;> rfl
  · rw [not_check_eq, or_pair_val A B ctx r a b hA hB,
      and_pair_val (Granter.not A) (Granter.not B) ctx r (!a) (!b) hNA hNB]
    cases a <;> cases b <;> rfl

/-- C4 witness: both De Morgan equalities at two concrete instrumented
units with results true and false. -/
theorem C4_witness :
    ((leaf "B" (fun (_ : Unit) (_ : Option Unit) => (Except.ok false : Except String Bool))).check () none).1
        = .ok false
    ∧ (((Granter.not (Granter.and [leaf "A" (fun (_ : Unit) (_ : Option Unit) => (Except.ok true : Except String Bool)),
          leaf "B" (fun _ _ => .ok false)])).check () none).1
        = ((Granter.or [Granter.not (leaf "A" (fun (_ : Unit) (_ : Option Unit) => (Except.ok true : Except String Bool))),
            Granter.not (leaf "B" (fun _ _ => .ok false))]).check () none).1
        ∧ ((Granter.not (Granter.or [leaf "A" (fun (_ : Unit) (_ : Option Unit) => (Except.ok true : Except String Bool)),
            leaf "B" (fun _ _ => .ok false)])).check () none).1
        = ((Granter.and [Granter.not (leaf "A" (fun (_ : Unit) (_ : Option Unit) => (Except.ok true : Except String Bool))),
            Granter.not (leaf "B" (fun _ _ => .ok false))]).check () none).1) :=
  ⟨rfl, C4_de_morgan _ _ () none true false rfl rfl⟩

theorem orThrowWith_undef (p : Perm Ctx JSVal E) (ctx : Ctx) (error : Option JSVal) :
    orThrowWith p ctx .undef error
      = (match p.check ctx none with
         | (.error e, l) => (.error (.error e), l)
         | (.ok true, l) => (.ok (), l)
         | (.ok false, l) => (.error (.ok (throwDenied p.name error)), l)) := rfl

theorem orThrowWith_undef_snd (p : Perm Ctx JSVal E) (ctx : Ctx) (error : Option JSVal) :
    (orThrowWith p ctx .undef error).2 = (p.check ctx none).2 := by
  rw [orThrowWith_undef]
  rcases hE : p.check ctx none with ⟨v, l⟩
  rcases v with e | b
  · rfl
  · cases b <;> rfl

/-- C5 counterexample: when the override is the empty string, `orThrow`
does not reject with a `ForbiddenError` wrapping the override; the
truthiness test `if (!error)` treats the empty string as absent, so the
rejection carries the default message naming the unit instead of the
supplied (empty) override string. -/
theorem C5_counterexample :
    (orThrow (leaf "P" (fun (_ : Unit) (_ : Option JSVal) =>
        (Except.ok false : Except String Bool))) () [.str ""]).1
      = .error (.ok (ForbiddenError "Permission denied: P"))
    ∧ ForbiddenError "Permission denied: P" ≠ ForbiddenError "" :=
  ⟨rfl, by decide⟩

/-- C5 (amended): `orThrow` resolves without a value exactly when the unit
evaluates to `true`; when it evaluates to `false`, `orThrow` rejects with a
`ForbiddenError` whose default message contains the unit name, or — when an
override is supplied — with a `ForbiddenError` wrapping a non-empty string
override, the given `Error` instance as-is, or the result of invoking a
zero-argument factory override; an empty-string override is treated as
absent and yields the default message. -/
theorem C5_orThrow_behaviour (p : Perm Ctx JSVal E) (ctx : Ctx) :
    ((orThrow p ctx []).1 = .ok () ↔ (p.check ctx none).1 = .ok true)
    ∧ ((p.check ctx none).1 = .ok false →
        (orThrow p ctx []).1
            = .error (.ok (ForbiddenError ("Permission denied: " ++ p.name)))
        ∧ (∀ s, s ≠ "" →
            (orThrow p ctx [.str s]).1 = .error (.ok (ForbiddenError s)))
        ∧ (orThrow p ctx [.str ""]).1
            = .error (.ok (ForbiddenError ("Permission denied: " ++ p.name)))
        ∧ (∀ en em,
            (orThrow p ctx [.errV en em]).1 = .error (.ok (.errV en em)))
        ∧ (∀ ret, (orThrow p ctx [.func ret]).1 = .error (.ok ret)))
    ∧ (∃ pre, "Permission denied: " ++ p.name = pre ++ p.name) := by
  have h0 : orThrow p ctx [] = orThrowWith p ctx .undef none := rfl
  refine ⟨?_, ?_, ⟨"Permission denied: ", rfl⟩⟩
  · rw [h0, orThrowWith_undef]
    rcases hE : p.check ctx none with ⟨v, l⟩
    rcases v with e | b
    · simp
    · cases b <;> simp
  · intro hfalse
    rcases hE : p.check ctx none with ⟨v, l⟩
    rw [hE] at hfalse
    simp only at hfalse
    subst hfalse
    have hstr : ∀ s, orThrow p ctx [.str s] = orThrowWith p ctx .undef (some (.str s)) :=
      fun s => rfl
    have herr : ∀ en em, orThrow p ctx [.errV en em]
        = orThrowWith p ctx .undef (some (.errV en em)) := fun en em => rfl
    have hfun : ∀ ret, orThrow p ctx [.func ret]
        = orThrowWith p ctx .undef (some (.func ret)) := fun ret => rfl
    refine ⟨?_, fun s hs => ?_, ?_, fun en em => ?_, fun ret => ?_⟩
    · rw [h0, orThrowWith_undef, hE]
      rfl
    · rw [hstr s, orThrowWith_undef, hE]
      simp [throwDenied, hs, ForbiddenError]
    · rw [hstr "", orThrowWith_undef, hE]
      rfl
    · rw [herr en em, orThrowWith_undef, hE]
      rfl
    · rw [hfun ret, orThrowWith_undef, hE]
      rfl

/-- C5 witness: the amended behaviour at concrete always-true and
always-false units. -/
theorem C5_witness :
    (orThrow (leaf "T" (fun (_ : Unit) (_ : Option JSVal) =>
        (Except.ok true : Except String Bool))) () []).1 = .ok ()
    ∧ (orThrow (leaf "P" (fun (_ : Unit) (_ : Option JSVal) =>
        (Except.ok false : Except String Bool))) () [.str "nope"]).1
      = .error (.ok (ForbiddenError "nope")) :=
  ⟨(C5_orThrow_behaviour (leaf "T" (fun _ _ => .ok true)) ()).1.mpr rfl,
   ((C5_orThrow_behaviour (leaf "P" (fun _ _ => .ok false)) ()).2.1 rfl).2.1 "nope"
     (by decide)⟩

/-- C8: for a unit called as `orThrow(ctx, x)`, the first extra argument x
is treated as the resource exactly when x is not a string, not a function
and not an `Error` instance; otherwise x is consumed as the error override,
and the underlying check is invoked with `undefined` as the resource (so
the log of the call is the log of the check at the undefined resource). -/
theorem C8_orThrow_dispatch (p : Perm Ctx JSVal E) (ctx : Ctx) (x : JSVal) :
    orThrow p ctx [x]
      = (if x.isStr || x.isFunc || x.isErr then orThrowWith p ctx .undef (some x)
         else orThrowWith p ctx x none)
    ∧ ((x.isStr || x.isFunc || x.isErr) = true →
        (orThrow p ctx [x]).2 = (p.check ctx none).2) := by
  constructor
  · cases x <;> rfl
  · intro hx
    cases x with
    | undef => simp [JSVal.isStr, JSVal.isFunc, JSVal.isErr] at hx
    | obj t => simp [JSVal.isStr, JSVal.isFunc, JSVal.isErr] at hx
    | str s => exact orThrowWith_undef_snd p ctx (some (.str s))
    | func ret => exact orThrowWith_undef_snd p ctx (some (.func ret))
    | errV en em => exact orThrowWith_undef_snd p ctx (some (.errV en em))

/-- C8 witness: the dispatch equalities at a concrete unit, a string
override and an object resource. -/
theorem C8_witness :
    (orThrow (leaf "R" (fun (_ : Unit) (r : Option JSVal) =>
        (Except.ok (r = some (.obj "post")) : Except String Bool))) () [.str "m"]).2
      = ((leaf "R" (fun (_ : Unit) (r : Option JSVal) =>
        (Except.ok (r = some (.obj "post")) : Except String Bool))).check () none).2
    ∧ orThrow (leaf "R" (fun (_ : Unit) (r : Option JSVal) =>
        (Except.ok (r = some (.obj "post")) : Except String Bool))) () [.obj "post"]
      = orThrowWith (leaf "R" (fun (_ : Unit) (r : Option JSVal) =>
        (Except.ok (r = some (.obj "post")) : Except String Bool))) () (.obj "post") none :=
  ⟨(C8_orThrow_dispatch (leaf "R" (fun _ r => .ok (r = some (.obj "post")))) () (.str "m")).2
     (by decide),
   (C8_orThrow_dispatch (leaf "R" (fun _ r => .ok (r = some (.obj "post")))) ()
     (.obj "post")).1⟩

/-- C6: for every permission unit whose check resolves to `f r` on each
candidate resource r, `filter` returns exactly the candidates for which the
unit evaluates to `true`, as a subsequence preserving the original relative
order, and returns the empty sequence for empty input. -/
theorem C6_filter_subsequence (p : Perm Ctx Res E) (ctx : Ctx) (f : Res → Bool)
    (h : ∀ r, (p.check ctx (some r)).1 = .ok (f r)) (rs : List Res) :
    (Granter.filter p ctx rs).1 = .ok (rs.filter f)
    ∧ (rs.filter f).Sublist rs
    ∧ (Granter.filter p ctx ([] : List Res)).1 = .ok [] := by
  refine ⟨?_, List.filter_sublist rs, rfl⟩
  rw [Granter.filter, filterStart_eq]
  have h1 : (rs.map fun r => (p.check ctx (some r)).1)
      = rs.map fun r => Except.ok (f r) := by
    exact List.map_congr_left fun r _ => h r
  rw [h1]
  dsimp only
  rw [promiseAll_map_ok]
  dsimp only
  have h2 := filterIdx_append f [] rs
  simp only [List.nil_append, List.length_nil] at h2
  rw [h2]

/-- C6 witness: filtering four numeric candidates through an is-even unit
keeps exactly the even ones, in order. -/
theorem C6_witness :
    (Granter.filter (leaf "even" (fun (_ : Unit) (r : Option Nat) =>
        (Except.ok (decide (r.getD 0 % 2 = 0)) : Except String Bool))) () [1, 2, 3, 4]).1
      = .ok ([1, 2, 3, 4].filter fun n => decide (n % 2 = 0)) :=
  (C6_filter_subsequence (leaf "even" (fun _ r => .ok (decide (r.getD 0 % 2 = 0)))) ()
    (fun n => decide (n % 2 = 0)) (fun _ => rfl) [1, 2, 3, 4]).1

theorem explain_childless (p : Perm Ctx Res E) (ctx : Ctx) (r : Option Res) (v : Bool)
    (L : Log) (hc : p.children = []) (h : p.check ctx r = (.ok v, L)) :
    explain p ctx r = (.ok (.mk p.name v none), L) := by
  cases p with
  | mk nm chk cs =>
    simp only [Perm.children] at hc
    subst hc
    simp only [Perm.check] at h
    simp only [Perm.name]
    simp [explain, h]

theorem explain_check_error (p : Perm Ctx Res E) (ctx : Ctx) (r : Option Res) (e : E)
    (L : Log) (h : p.check ctx r = (.error e, L)) :
    explain p ctx r = (.error e, L) := by
  obtain ⟨nm, chk, cs⟩ := p
  simp only [Perm.check] at h
  rw [explain, h]

theorem explainList_mkLeaf (specs : List (String × (Ctx → Option Res → Bool)))
    (ctx : Ctx) (r : Option Res) :
    explainList (E := E) (specs.map mkLeaf) ctx r
      = (specs.map fun s => .ok (.mk s.1 (s.2 ctx r) none), specs.map (·.1)) := by
  induction specs with
  | nil => simp [explainList]
  | cons s rest ih =>
    have hleaf : explain (mkLeaf (E := E) s) ctx r = (.ok (.mk s.1 (s.2 ctx r) none), [s.1]) :=
      explain_childless _ ctx r _ _ rfl rfl
    simp [explainList, hleaf, ih]

theorem parBody_mkLeaf (combine : List Bool → Bool)
    (specs : List (String × (Ctx → Option Res → Bool))) (ctx : Ctx) (r : Option Res) :
    parBody (E := E) combine (specs.map mkLeaf) ctx r
      = (.ok (combine (specs.map fun s => s.2 ctx r)), specs.map (·.1)) := by
  rw [parBody, startAll_eq]
  simp only [List.map_map]
  have h2 : (fun q => ((Perm.check (E := E) q) ctx r).1) ∘ mkLeaf
      = fun s : String × (Ctx → Option Res → Bool) => Except.ok (s.2 ctx r) := rfl
  have h3 : (fun q => ((Perm.check (E := E) q) ctx r).2) ∘ mkLeaf
      = fun s : String × (Ctx → Option Res → Bool) => [s.1] := rfl
  rw [h2, h3, promiseAll_map_ok, flatten_map_singleton]

/-- C2 counterexample: on the composite `and(A, B)` with both instrumented
children resolving `true`, a plain call evaluates both children (the log
records A then B), yet `explain` returns a node with no child Explanation
Nodes at all, because `and` passes no `children` metadata to `permission`;
the claim requires one child node per evaluated child (here two). -/
theorem C2_counterexample :
    explain (Granter.and [leaf "A" (fun (_ : Unit) (_ : Option Unit) =>
        (Except.ok true : Except String Bool)), leaf "B" (fun _ _ => .ok true)]) () none
      = (.ok (.mk "(A AND B)" true none), ["A", "B"])
    ∧ (Granter.and [leaf "A" (fun (_ : Unit) (_ : Option Unit) =>
        (Except.ok true : Except String Bool)), leaf "B" (fun _ _ => .ok true)]).check () none
      = (.ok true, ["A", "B"]) :=
  ⟨explain_childless _ () none true ["A", "B"] rfl rfl, rfl⟩

/-- C2 (amended): `explain` returns a node whose result equals what a plain
direct call returns, but its child-node list mirrors the `children`
metadata rather than the evaluation: a composite built without `children`
metadata (such as `and`, `or` and `not` composites) yields a node with no
child entries even when children were evaluated, and a composite carrying
`children` metadata (the parallel operators) yields one entry for every
child, each produced by re-evaluating that child a second time, so the
explain call runs every instrumented check twice. -/
theorem C2_explain_behaviour (ctx : Ctx) (r : Option Res) :
    (∀ (p : Perm Ctx Res E) (v : Bool) (L : Log), p.children = [] →
      p.check ctx r = (.ok v, L) → explain p ctx r = (.ok (.mk p.name v none), L))
    ∧ (∀ (s0 : String × (Ctx → Option Res → Bool)) specs,
        explain (andParallel (E := E) ((s0 :: specs).map mkLeaf)) ctx r
          = (.ok (.mk (andParallel (E := E) ((s0 :: specs).map mkLeaf)).name
                ((s0 :: specs).all fun s => s.2 ctx r)
                (some ((s0 :: specs).map fun s => .mk s.1 (s.2 ctx r) none))),
             ((s0 :: specs).map (·.1)) ++ ((s0 :: specs).map (·.1)))) := by
  constructor
  · exact fun p v L hc h => explain_childless p ctx r v L hc h
  · intro s0 specs
    have h0 : andParallel (E := E) ((s0 :: specs).map mkLeaf)
        = Perm.mk (joinNames "AND" ((s0 :: specs).map mkLeaf))
            (parBody (List.all · id) ((s0 :: specs).map mkLeaf))
            ((s0 :: specs).map mkLeaf) := rfl
    rw [h0]
    have hpb := parBody_mkLeaf (E := E) (List.all · id) (s0 :: specs) ctx r
    have hel := explainList_mkLeaf (E := E) (s0 :: specs) ctx r
    have hpa := promiseAll_map_ok (E := E) (s0 :: specs)
      (fun s => ExplNode.mk s.1 (s.2 ctx r) none)
    simp only [List.map_cons] at hpb hel hpa ⊢
    simp [explain, hpb, hel, hpa, Perm.name, all_map_id]

/-- C2 witness: the amended behaviour at concrete instrumented units. -/
theorem C2_witness :
    explain (Granter.or [leaf "A" (fun (_ : Unit) (_ : Option Unit) =>
        (Except.ok false : Except String Bool)), leaf "B" (fun _ _ => .ok true)]) () none
      = (.ok (.mk "(A OR B)" true none), ["A", "B"])
    ∧ explain (andParallel [mkLeaf (E := String) ("A", fun (_ : Unit) (_ : Option Unit) => true),
        mkLeaf ("B", fun _ _ => false)]) () none
      = (.ok (.mk "(A AND B)" false
            (some [.mk "A" true none, .mk "B" false none])), ["A", "B", "A", "B"]) :=
  ⟨(C2_explain_behaviour () none).1
     (Granter.or [leaf "A" (fun _ _ => .ok false), leaf "B" (fun _ _ => .ok true)])
     true ["A", "B"] rfl rfl,
   (C2_explain_behaviour () none).2 ("A", fun _ _ => true) [("B", fun _ _ => false)]⟩

/-- C10: for every permission unit P whose check resolves to a boolean, the
composite `not(P)` is constructed without `children` metadata, so `explain`
on `not(P)` returns a node with no child Explanation Nodes: only the name
`NOT <P.name>` and the inverted result (the wall-clock duration field is a
real-time measurement outside this embedding), even though `not(P)` was
produced by an operator. -/
theorem C10_not_explain (p : Perm Ctx Res E) (ctx : Ctx) (r : Option Res) (b : Bool)
    (L : Log) (h : p.check ctx r = (.ok b, L)) :
    (Granter.not p).children = []
    ∧ explain (Granter.not p) ctx r = (.ok (.mk ("NOT " ++ p.name) (!b) none), L) := by
  refine ⟨rfl, ?_⟩
  have hc : (Granter.not p).check ctx r = (.ok (!b), L) := by
    rw [not_check_eq, h]
    rfl
  exact explain_childless (Granter.not p) ctx r (!b) L rfl hc

/-- C10 witness: the explanation of the negation of a concrete instrumented
unit. -/
theorem C10_witness :
    (Granter.not (leaf "P" (fun (_ : Unit) (_ : Option Unit) =>
        (Except.ok true : Except String Bool)))).children = []
    ∧ explain (Granter.not (leaf "P" (fun (_ : Unit) (_ : Option Unit) =>
        (Except.ok true : Except String Bool)))) () none
      = (.ok (.mk "NOT P" false none), ["P"]) :=
  C10_not_explain (leaf "P" (fun _ _ => .ok true)) () none true ["P"] rfl

theorem andLoop_error (ctx : Ctx) (r : Option Res) (e : E) :
    ∀ (ps : List (Perm Ctx Res E)) (p : Perm Ctx Res E) (qs : List (Perm Ctx Res E)),
      (∀ q ∈ ps, (q.check ctx r).1 = .ok true) → (p.check ctx r).1 = .error e →
      (andLoop (ps ++ p :: qs) ctx r).1 = .error e := by
  intro ps
  induction ps with
  | nil =>
    intro p qs _ hp
    rcases hE : p.check ctx r with ⟨v, l⟩
    rw [hE] at hp
    simp only at hp
    subst hp
    simp [andLoop, hE]
  | cons q rest ih =>
    intro p qs hok hp
    have hq := hok q (List.mem_cons_self q rest)
    rcases hE : q.check ctx r with ⟨v, l⟩
    rw [hE] at hq
    simp only at hq
    subst hq
    have hrec := ih p qs (fun x hx => hok x (List.mem_cons_of_mem _ hx)) hp
    rcases hR : andLoop (rest ++ p :: qs) ctx r with ⟨v', l'⟩
    rw [hR] at hrec
    simp only at hrec
    subst hrec
    simp [andLoop, hE, hR]

theorem promiseStart_error (ctx : Ctx) (r : Option Res) (e : E)
    (ps : List (Perm Ctx Res E)) (p : Perm Ctx Res E) (qs : List (Perm Ctx Res E))
    (hok : ∀ q ∈ ps, ∃ b, (q.check ctx r).1 = .ok b)
    (hp : (p.check ctx r).1 = .error e) :
    promiseAll ((startAll (ps ++ p :: qs) ctx r).1) = .error e := by
  rw [startAll_eq]
  simp only [List.map_append, List.map_cons, hp]
  exact promiseAll_append_error _ (fun x hx => by
    obtain ⟨q, hq, hxq⟩ := List.mem_map.mp hx
    obtain ⟨b, hb⟩ := hok q hq
    exact ⟨b, hxq ▸ hb⟩) e _

theorem orBody_error (ctx : Ctx) (r : Option Res) (e : E)
    (ps : List (Perm Ctx Res E)) (p : Perm Ctx Res E) (qs : List (Perm Ctx Res E))
    (hok : ∀ q ∈ ps, ∃ b, (q.check ctx r).1 = .ok b)
    (hp : (p.check ctx r).1 = .error e) :
    (orBody (ps ++ p :: qs) ctx r).1 = .error e := by
  have hP := promiseStart_error ctx r e ps p qs hok hp
  rw [orBody]
  rcases hS : startAll (ps ++ p :: qs) ctx r with ⟨vs, l⟩
  rw [hS] at hP
  simp only at hP
  dsimp only
  rw [hP]

theorem parBody_error (combine : List Bool → Bool) (ctx : Ctx) (r : Option Res) (e : E)
    (ps : List (Perm Ctx Res E)) (p : Perm Ctx Res E) (qs : List (Perm Ctx Res E))
    (hok : ∀ q ∈ ps, ∃ b, (q.check ctx r).1 = .ok b)
    (hp : (p.check ctx r).1 = .error e) :
    (parBody combine (ps ++ p :: qs) ctx r).1 = .error e := by
  have hP := promiseStart_error ctx r e ps p qs hok hp
  rw [parBody]
  rcases hS : startAll (ps ++ p :: qs) ctx r with ⟨vs, l⟩
  rw [hS] at hP
  simp only at hP
  dsimp only
  rw [hP]

theorem orThrow_check_error (p : Perm Ctx JSVal E) (ctx : Ctx) (e : E)
    (h : (p.check ctx none).1 = .error e) :
    (orThrow p ctx []).1 = .error (.error e) := by
  have h0 : orThrow p ctx [] = orThrowWith p ctx .undef none := rfl
  rw [h0, orThrowWith_undef]
  rcases hE : p.check ctx none with ⟨v, l⟩
  rw [hE] at h
  simp only at h
  subst h
  rfl

/-- C7: a fault in a check propagates unchanged: through direct evaluation
of the unit; through `and` when every child before the faulting one
resolved `true`; through `or`, `andParallel` and `orParallel` when every
child before the faulting one resolved (the faulting child is evaluated
regardless, and `Promise.all` rejects with its error); through `not`;
through `orThrow` (which rejects with the check fault, not with a
`ForbiddenError`); through `filter` when the checks of the earlier
candidates resolved; and through `explain`.  In every case the result is
the same error, never a `false` result. -/
theorem C7_fault_propagation (ctx : Ctx) (r : Option Res) (e : E) :
    (∀ (nm : String) (f : Ctx → Option Res → Except E Bool), f ctx r = .error e →
      ((leaf nm f).check ctx r).1 = .error e)
    ∧ (∀ (ps : List (Perm Ctx Res E)) p qs,
        (∀ q ∈ ps, (Perm.check q ctx r).1 = .ok true) → (p.check ctx r).1 = .error e →
        ((Granter.and (ps ++ p :: qs)).check ctx r).1 = .error e)
    ∧ (∀ (ps : List (Perm Ctx Res E)) p qs,
        (∀ q ∈ ps, ∃ b, (Perm.check q ctx r).1 = .ok b) → (p.check ctx r).1 = .error e →
        ((Granter.or (ps ++ p :: qs)).check ctx r).1 = .error e)
    ∧ (∀ (p : Perm Ctx Res E), (p.check ctx r).1 = .error e →
        ((Granter.not p).check ctx r).1 = .error e)
    ∧ (∀ (ps : List (Perm Ctx Res E)) p qs,
        (∀ q ∈ ps, ∃ b, (Perm.check q ctx r).1 = .ok b) → (p.check ctx r).1 = .error e →
        ((andParallel (ps ++ p :: qs)).check ctx r).1 = .error e)
    ∧ (∀ (ps : List (Perm Ctx Res E)) p qs,
        (∀ q ∈ ps, ∃ b, (Perm.check q ctx r).1 = .ok b) → (p.check ctx r).1 = .error e →
        ((orParallel (ps ++ p :: qs)).check ctx r).1 = .error e)
    ∧ (∀ (p : Perm Ctx JSVal E), (p.check ctx none).1 = .error e →
        (orThrow p ctx []).1 = .error (.error e))
    ∧ (∀ (p : Perm Ctx Res E) (rs1 : List Res) (rr : Res) (rs2 : List Res),
        (∀ x ∈ rs1, ∃ b, (p.check ctx (some x)).1 = .ok b) →
        (p.check ctx (some rr)).1 = .error e →
        (Granter.filter p ctx (rs1 ++ rr :: rs2)).1 = .error e)
    ∧ (∀ (p : Perm Ctx Res E), (p.check ctx r).1 = .error e →
        (explain p ctx r).1 = .error e) := by
  refine ⟨?_, ?_, ?_, ?_, ?_, ?_, ?_, ?_, ?_⟩
  · intro nm f hf
    simp [leaf, permission, Perm.check, hf]
  · intro ps p qs hok hp
    exact andLoop_error ctx r e ps p qs hok hp
  · intro ps p qs hok hp
    exact orBody_error ctx r e ps p qs hok hp
  · intro p hp
    rw [not_check_eq]
    rcases hE : p.check ctx r with ⟨v, l⟩
    rw [hE] at hp
    simp only at hp
    subst hp
    rfl
  · intro ps p qs hok hp
    exact parBody_error (List.all · id) ctx r e ps p qs hok hp
  · intro ps p qs hok hp
    exact parBody_error (List.any · id) ctx r e ps p qs hok hp
  · intro p hp
    exact orThrow_check_error p ctx e hp
  · intro p rs1 rr rs2 hok hp
    have hP : promiseAll ((filterStart p ctx (rs1 ++ rr :: rs2)).1) = .error e := by
      rw [filterStart_eq]
      simp only [List.map_append, List.map_cons, hp]
      exact promiseAll_append_error _ (fun x hx => by
        obtain ⟨q, hq, hxq⟩ := List.mem_map.mp hx
        obtain ⟨b, hb⟩ := hok q hq
        exact ⟨b, hxq ▸ hb⟩) e _
    rw [Granter.filter]
    rcases hS : filterStart p ctx (rs1 ++ rr :: rs2) with ⟨vs, l⟩
    rw [hS] at hP
    simp only at hP
    dsimp only
    rw [hP]
  · intro p hp
    rcases hE : p.check ctx r with ⟨v, l⟩
    rw [hE] at hp
    simp only at hp
    subst hp
    rw [explain_check_error p ctx r e l hE]

/-- C7 witness: the nine propagation statements at a concrete faulting
check (error string boom) with concrete ok siblings. -/
theorem C7_witness :
    ((leaf "X" (fun (_ : Unit) (_ : Option Unit) =>
        (Except.error "boom" : Except String Bool))).check () none).1 = .error "boom"
    ∧ ((Granter.and [leaf "T" (fun (_ : Unit) (_ : Option Unit) =>
        (Except.ok true : Except String Bool)),
        leaf "X" (fun _ _ => .error "boom")]).check () none).1 = .error "boom"
    ∧ ((Granter.or [leaf "T" (fun (_ : Unit) (_ : Option Unit) =>
        (Except.ok true : Except String Bool)),
        leaf "X" (fun _ _ => .error "boom")]).check () none).1 = .error "boom"
    ∧ ((Granter.not (leaf "X" (fun (_ : Unit) (_ : Option Unit) =>
        (Except.error "boom" : Except String Bool)))).check () none).1 = .error "boom"
    ∧ ((andParallel [leaf "T" (fun (_ : Unit) (_ : Option Unit) =>
        (Except.ok true : Except String Bool)),
        leaf "X" (fun _ _ => .error "boom")]).check () none).1 = .error "boom"
    ∧ ((orParallel [leaf "T" (fun (_ : Unit) (_ : Option Unit) =>
        (Except.ok true : Except String Bool)),
        leaf "X" (fun _ _ => .error "boom")]).check () none).1 = .error "boom"
    ∧ (orThrow (leaf "X" (fun (_ : Unit) (_ : Option JSVal) =>
        (Except.error "boom" : Except String Bool))) () []).1 = .error (.error "boom")
    ∧ (Granter.filter (leaf "X" (fun (_ : Unit) (rr : Option Nat) =>
        (if rr = some 1 then .error "boom" else .ok true : Except String Bool))) () [0, 1, 2]).1
      = .error "boom"
    ∧ (explain (leaf "X" (fun (_ : Unit) (_ : Option Unit) =>
        (Except.error "boom" : Except String Bool))) () none).1 = .error "boom" := by
  refine ⟨(C7_fault_propagation () none "boom").1 "X" _ rfl,
    (C7_fault_propagation () none "boom").2.1
      [leaf "T" (fun _ _ => .ok true)] (leaf "X" (fun _ _ => .error "boom")) []
      (by intro q hq; simp at hq; subst hq; rfl) rfl,
    (C7_fault_propagation () none "boom").2.2.1
      [leaf "T" (fun _ _ => .ok true)] (leaf "X" (fun _ _ => .error "boom")) []
      (by intro q hq; simp at hq; subst hq; exact ⟨true, rfl⟩) rfl,
    (C7_fault_propagation () none "boom").2.2.2.1 (leaf "X" (fun _ _ => .error "boom")) rfl,
    (C7_fault_propagation () none "boom").2.2.2.2.1
      [leaf "T" (fun _ _ => .ok true)] (leaf "X" (fun _ _ => .error "boom")) []
      (by intro q hq; simp at hq; subst hq; exact ⟨true, rfl⟩) rfl,
    (C7_fault_propagation () none "boom").2.2.2.2.2.1
      [leaf "T" (fun _ _ => .ok true)] (leaf "X" (fun _ _ => .error "boom")) []
      (by intro q hq; simp at hq; subst hq; exact ⟨true, rfl⟩) rfl,
    (@C7_fault_propagation Unit Unit String () none "boom").2.2.2.2.2.2.1
      (leaf "X" (fun _ _ => .error "boom")) rfl,
    (@C7_fault_propagation Unit Nat String () none "boom").2.2.2.2.2.2.2.1
      (leaf "X" (fun _ rr => if rr = some 1 then .error "boom" else .ok true))
      [0] 1 [2] (by intro x hx; simp at hx; subst hx; exact ⟨true, rfl⟩) rfl,
    (C7_fault_propagation () none "boom").2.2.2.2.2.2.2.2
      (leaf "X" (fun _ _ => .error "boom")) rfl⟩

/-- C9: calling `and` with an empty permission list yields a unit that
evaluates to `true` (the loop body never runs and the closure returns
`true`), and `or` with an empty list yields a unit that evaluates to
`false` (`Promise.all([])` resolves to `[]` and `[].some(...)` is
`false`): the identity elements of conjunction and disjunction. -/
theorem C9_empty_operators (ctx : Ctx) (r : Option Res) :
    (Granter.and ([] : List (Perm Ctx Res E))).check ctx r = (.ok true, [])
    ∧ (Granter.or ([] : List (Perm Ctx Res E))).check ctx r = (.ok false, []) :=
  ⟨rfl, rfl⟩

end Granter
